import Mathlib

/-!
Shallow embedding of src/contracts/rust/sigmoid_calculator/src/lib.rs.

Modelling conventions:
* `U256` values are natural numbers; the ruint arithmetic operators used by
  the source (`+`, `*` on `U256`) wrap modulo 2^256 (`wrapping_add` /
  `wrapping_mul`), which we make explicit with `uAdd` / `uMul`.
  `U256` division is flooring and cannot overflow, so it is plain `Nat`
  division.  Subtractions in the source are all guarded (`supply - b` only
  when `supply >= b`, etc.), so plain truncating `Nat` subtraction agrees.
* A Rust `panic!` (division by zero in `div_fixed`) is modelled by `Option`:
  `none` is the aborted call.
* The floating-point segment of `exp_precise` (conversion of the limb pair to
  `f64` followed by `libm::exp`) is modelled by an oracle parameter
  `FloatExp : Bool → ℕ → ℕ → Option ℚ`.  The oracle receives exactly the data
  the source feeds into the float pipeline: the sign flag,
  `int_part.as_limbs()[0]` and `frac_part.as_limbs()[0]`;
  it returns the exact real value of the resulting `f64`
  (`none` models an infinite result).  All rounding performed inside that
  float pipeline is absorbed by the oracle.  The conversion back to
  fixed-point (`libm::trunc`, the exact f64 subtraction, the `as u128` casts)
  is modelled in exact rational arithmetic; the single f64 rounding of the
  multiplication `(exp_result - trunc(exp_result)) * SCALE as f64` is below
  one raw unit and is not modelled.  Theorems that depend on concrete values
  of `libm::exp` state those values as explicit hypotheses on the oracle.
-/

/-- Modulus of the 256-bit unsigned integer type `U256`. -/
def U256MOD : ℕ := 2 ^ 256

/-- Source: `pub const DECIMALS: u32 = 18;` -/
def DECIMALS : ℕ := 18

/-- Source: `pub const SCALE: u128 = 10_u128.pow(DECIMALS);` and
`SCALE_U256 = U256::from_limbs([SCALE as u64, (SCALE >> 64) as u64, 0, 0])`,
which is the same number since `10^18 < 2^64`. -/
def SCALE : ℕ := 10 ^ DECIMALS

/-- Wrapping `U256` addition (ruint `impl Add` = `wrapping_add`). -/
def uAdd (a b : ℕ) : ℕ := (a + b) % U256MOD

/-- Wrapping `U256` multiplication (ruint `impl Mul` = `wrapping_mul`). -/
def uMul (a b : ℕ) : ℕ := (a * b) % U256MOD

/-- Source `fixed_point::mul_fixed`: `let product = a * b; product / SCALE_U256`. -/
def mul_fixed (a b : ℕ) : ℕ := uMul a b / SCALE

/-- Source `fixed_point::div_fixed`:
panics (`none`) when `b == 0`, else `(a * SCALE_U256) / b`. -/
def div_fixed (a b : ℕ) : Option ℕ :=
  if b = 0 then none else some (uMul a SCALE / b)

/-- Value of `as_limbs()[0]`: the low 64-bit limb. -/
def LIMB0 : ℕ := 2 ^ 64

/-- Oracle type modelling the f64 pipeline of `exp_precise`
(limbs-to-f64 conversion composed with `libm::exp`); see the header comment. -/
def FloatExp : Type := Bool → ℕ → ℕ → Option ℚ

/-- Source: `U256::from(u128::MAX) * SCALE_U256 / U256::from(1000u128)`. -/
def EXP_SENTINEL : ℕ := uMul (2 ^ 128 - 1) SCALE / 1000

/-- Truncation of a nonnegative rational to a natural number, modelling
`libm::trunc` followed by an `as u128` cast (Rust float-to-int casts of
negative values saturate to 0, which `Int.toNat`-style clamping via
`num.toNat` reproduces). -/
def natFloorQ (q : ℚ) : ℕ := q.num.toNat / q.den

/-- The f64 literal `1e-18` of the source, modelled as the exact rational
`1 / 10^18` (written as a raw rational so that kernel evaluation works). -/
def EXP_UNDERFLOW_EPS : ℚ := ⟨1, 10 ^ 18, by norm_num, by simp⟩

/-- Conversion of the f64 exponential result back to fixed point, source:
`let whole = libm::trunc(exp_result) as u128;`
`let frac = ((exp_result - libm::trunc(exp_result)) * SCALE as f64) as u128;`
`U256::from(whole) * SCALE_U256 + U256::from(frac)`.
The fractional part `(v - whole) * SCALE` and its truncation are computed
directly on the numerator and denominator of `v`, which is the same exact
rational arithmetic.  The guards in `exp_precise` keep `whole ≤ 10^30` and
`frac < SCALE`, far below every wrap or cast-saturation threshold, so plain
`Nat` arithmetic is exact here. -/
def fixedOfFloat (v : ℚ) : ℕ :=
  let whole : ℕ := natFloorQ v
  whole * SCALE + ((v.num - (whole : ℤ) * (v.den : ℤ)) * (SCALE : ℤ)).toNat / v.den

/-- Source `sigmoid_math::exp_precise`.  The float pipeline is the oracle
`E`; the branch structure and the saturation policy are the source's:
infinite or `> 1e30` gives the sentinel, `< 1e-18` gives raw 1. -/
def exp_precise (E : FloatExp) (x : ℕ) (is_negative : Bool) : ℕ :=
  let int_part := x / SCALE
  let frac_part := x % SCALE
  match E is_negative (int_part % LIMB0) (frac_part % LIMB0) with
  | none => EXP_SENTINEL
  | some expResult =>
      if (10 ^ 30 : ℚ) < expResult then EXP_SENTINEL
      else if expResult < EXP_UNDERFLOW_EPS then 1
      else fixedOfFloat expResult

/-- Source `sigmoid_math::sigmoid_precise`. -/
def sigmoid_precise (E : FloatExp) (x : ℕ) (is_negative : Bool) : Option ℕ :=
  if is_negative then
    let exp_neg_x := exp_precise E x true
    div_fixed exp_neg_x (uAdd SCALE exp_neg_x)
  else
    let exp_neg_x := exp_precise E x true
    div_fixed SCALE (uAdd SCALE exp_neg_x)

/-- Source `sigmoid_math::sigmoid_fixed`: delegates to `sigmoid_precise`. -/
def sigmoid_fixed (E : FloatExp) (x : ℕ) (is_negative : Bool) : Option ℕ :=
  sigmoid_precise E x is_negative

/-- Source `sigmoid_math::calculate_sigmoid_price`. -/
def calculate_sigmoid_price (E : FloatExp) (supply a k b : ℕ) : Option ℕ :=
  let d : ℕ × Bool := if b ≤ supply then (supply - b, false) else (b - supply, true)
  let k_times_diff := mul_fixed k d.1
  (sigmoid_fixed E k_times_diff d.2).map (fun s => mul_fixed a s)

/-- The step size computed by `sigmoid_integral`:
`if to_supply > from_supply { (to_supply - from_supply) / steps } else { U256::ZERO }`
with `steps = 100`. -/
def integral_step_size (from_supply to_supply : ℕ) : ℕ :=
  if from_supply < to_supply then (to_supply - from_supply) / 100 else 0

/-- The `for _ in 0..steps` loop of `sigmoid_integral`, with state
`(integral, current_supply)`.  A panic inside `calculate_sigmoid_price`
aborts the whole loop (`none`). -/
def integralLoop (E : FloatExp) (a k b step_size : ℕ) :
    ℕ → ℕ × ℕ → Option (ℕ × ℕ)
  | 0, st => some st
  | Nat.succ n, st =>
      match calculate_sigmoid_price E st.2 a k b with
      | none => none
      | some price =>
          integralLoop E a k b step_size n
            (uAdd st.1 (mul_fixed price step_size), uAdd st.2 step_size)

/-- Source `sigmoid_math::sigmoid_integral`. -/
def sigmoid_integral (E : FloatExp) (from_supply to_supply a k b : ℕ) : Option ℕ :=
  (integralLoop E a k b (integral_step_size from_supply to_supply) 100
      (0, from_supply)).map Prod.fst

/-- Concrete oracle: the exponential always evaluates to exactly 1.0
(this is the value `libm::exp` takes at argument 0). -/
def expOracleOne : FloatExp := fun _ _ _ => some 1

/-- Concrete oracle: the f64 result is infinite at every input. -/
def expOracleInf : FloatExp := fun _ _ _ => none

/-- Concrete oracle: the f64 result is 0.0 at every input
(the value `libm::exp` takes at large negative arguments). -/
def expOracleTiny : FloatExp := fun _ _ _ => some 0

/-- Concrete oracle modelling `libm::exp` at the two points reached by the
monotonicity counterexample: `exp(-0.0) = 1.0` exactly, and
`exp(-1.8446744073709552e19) = 0.0` (underflow).  The low integer limb is 0
in the first case and nonzero in the second. -/
def expOracleCutoff : FloatExp := fun _ i _ => if i = 0 then some 1 else some 0

/-! ### Basic numeric facts -/

lemma SCALE_pos : 0 < SCALE := by decide

lemma EXP_SENTINEL_eq : EXP_SENTINEL = (2 ^ 128 - 1) * 10 ^ 15 := by decide

lemma one_le_EXP_SENTINEL : 1 ≤ EXP_SENTINEL := by decide

lemma EXP_UNDERFLOW_EPS_eq : EXP_UNDERFLOW_EPS = 1 / (10 ^ 18 : ℚ) := by
  rw [EXP_UNDERFLOW_EPS, Rat.mk'_eq_divInt, Rat.divInt_eq_div]
  norm_num

/-! ### Bounds for the rational truncation -/

lemma natFloorQ_cast_le (q : ℚ) (hq : 0 ≤ q) : (natFloorQ q : ℚ) ≤ q := by
  have hden : (0 : ℚ) < (q.den : ℚ) := by exact_mod_cast q.den_pos
  have hnum : 0 ≤ q.num := Rat.num_nonneg.mpr hq
  have h1 : natFloorQ q * q.den ≤ q.num.toNat := Nat.div_mul_le_self _ _
  have h2 : ((natFloorQ q : ℚ)) * (q.den : ℚ) ≤ ((q.num.toNat : ℕ) : ℚ) := by
    exact_mod_cast h1
  have h3 : ((q.num.toNat : ℕ) : ℚ) = ((q.num : ℤ) : ℚ) := by
    exact_mod_cast congrArg (fun z : ℤ => (z : ℚ)) (Int.toNat_of_nonneg hnum)
  rw [h3] at h2
  have h4 : (natFloorQ q : ℚ) ≤ (q.num : ℚ) / (q.den : ℚ) := (le_div_iff₀ hden).mpr h2
  rwa [Rat.num_div_den] at h4

lemma lt_natFloorQ_add_one (q : ℚ) (hq : 0 ≤ q) : q < natFloorQ q + 1 := by
  have hden : (0 : ℚ) < (q.den : ℚ) := by exact_mod_cast q.den_pos
  have hdpos : 0 < q.den := q.den_pos
  have hnum : 0 ≤ q.num := Rat.num_nonneg.mpr hq
  have h1 : q.num.toNat < (natFloorQ q + 1) * q.den := by
    have hdm := Nat.div_add_mod q.num.toNat q.den
    have hmod : q.num.toNat % q.den < q.den := Nat.mod_lt _ hdpos
    unfold natFloorQ
    calc q.num.toNat = q.den * (q.num.toNat / q.den) + q.num.toNat % q.den := hdm.symm
      _ < q.den * (q.num.toNat / q.den) + q.den := Nat.add_lt_add_left hmod _
      _ = (q.num.toNat / q.den + 1) * q.den := by ring
  have h2 : ((q.num : ℤ) : ℚ) < ((natFloorQ q : ℕ) : ℚ) * (q.den : ℚ) + (q.den : ℚ) := by
    have : ((q.num.toNat : ℕ) : ℚ) < ((natFloorQ q + 1) * q.den : ℕ) := by exact_mod_cast h1
    have h3 : ((q.num.toNat : ℕ) : ℚ) = ((q.num : ℤ) : ℚ) := by
      exact_mod_cast congrArg (fun z : ℤ => (z : ℚ)) (Int.toNat_of_nonneg hnum)
    rw [h3] at this
    push_cast at this
    linarith
  calc q = (q.num : ℚ) / (q.den : ℚ) := (Rat.num_div_den q).symm
    _ < natFloorQ q + 1 := by
        rw [div_lt_iff₀ hden]
        linarith

lemma natFloorQ_le_of_le (q : ℚ) (n : ℕ) (h : q ≤ (n : ℚ)) : natFloorQ q ≤ n := by
  by_cases hq : 0 ≤ q
  · have h1 : (natFloorQ q : ℚ) ≤ (n : ℚ) := le_trans (natFloorQ_cast_le q hq) h
    exact_mod_cast h1
  · push_neg at hq
    have hnum : q.num < 0 := Rat.num_neg.mpr hq
    have : q.num.toNat = 0 := Int.toNat_eq_zero.mpr (le_of_lt hnum)
    unfold natFloorQ
    rw [this]
    simp

lemma one_le_natFloorQ (q : ℚ) (h : 1 ≤ q) : 1 ≤ natFloorQ q := by
  have h1 : (1 : ℚ) < natFloorQ q + 1 :=
    lt_of_le_of_lt h (lt_natFloorQ_add_one q (le_trans zero_le_one h))
  have h2 : (0 : ℚ) < natFloorQ q := by linarith
  exact_mod_cast h2

/-! ### Bounds for the float-to-fixed conversion -/

lemma fixedOfFloat_le (v : ℚ) (h0 : 0 ≤ v) (h30 : v ≤ (10 ^ 30 : ℚ)) :
    fixedOfFloat v ≤ 10 ^ 30 * SCALE + (SCALE - 1) := by
  have hden : (0 : ℚ) < (v.den : ℚ) := by exact_mod_cast v.den_pos
  have hdpos : 0 < v.den := v.den_pos
  have hw : natFloorQ v ≤ 10 ^ 30 := by
    apply natFloorQ_le_of_le
    exact_mod_cast h30
  have hfr : ((v.num - (natFloorQ v : ℤ) * (v.den : ℤ)) * (SCALE : ℤ)).toNat / v.den ≤
      SCALE - 1 := by
    have hv1 : v < natFloorQ v + 1 := lt_natFloorQ_add_one v h0
    have hnumlt : v.num < ((natFloorQ v : ℤ) + 1) * (v.den : ℤ) := by
      have h1 : (v.num : ℚ) / (v.den : ℚ) < ((natFloorQ v : ℚ) + 1) := by
        rw [Rat.num_div_den v]; exact hv1
      rw [div_lt_iff₀ hden] at h1
      exact_mod_cast h1
    have hkey : (v.num - (natFloorQ v : ℤ) * (v.den : ℤ)) * (SCALE : ℤ) <
        (SCALE : ℤ) * (v.den : ℤ) := by
      have hd : v.num - (natFloorQ v : ℤ) * (v.den : ℤ) < (v.den : ℤ) := by linarith
      calc (v.num - (natFloorQ v : ℤ) * (v.den : ℤ)) * (SCALE : ℤ)
          ≤ ((v.den : ℤ) - 1) * (SCALE : ℤ) := by
            apply mul_le_mul_of_nonneg_right (by linarith)
            exact_mod_cast Nat.zero_le SCALE
        _ < (SCALE : ℤ) * (v.den : ℤ) := by
            have hS : (0 : ℤ) < (SCALE : ℤ) := by exact_mod_cast SCALE_pos
            nlinarith
    have hpos : (0 : ℤ) < (SCALE : ℤ) * (v.den : ℤ) :=
      mul_pos (by exact_mod_cast SCALE_pos) (by exact_mod_cast hdpos)
    have htn : ((v.num - (natFloorQ v : ℤ) * (v.den : ℤ)) * (SCALE : ℤ)).toNat <
        SCALE * v.den := by
      have h2 := (Int.toNat_lt_toNat hpos).mpr hkey
      calc ((v.num - (natFloorQ v : ℤ) * (v.den : ℤ)) * (SCALE : ℤ)).toNat
          < ((SCALE : ℤ) * (v.den : ℤ)).toNat := h2
        _ = SCALE * v.den := by
            rw [← Int.natCast_mul]
            exact Int.toNat_natCast _
    have hdivlt : ((v.num - (natFloorQ v : ℤ) * (v.den : ℤ)) * (SCALE : ℤ)).toNat / v.den <
        SCALE := by
      rw [Nat.div_lt_iff_lt_mul hdpos]
      exact htn
    omega
  simp only [fixedOfFloat]
  have hws : natFloorQ v * SCALE ≤ 10 ^ 30 * SCALE := Nat.mul_le_mul_right _ hw
  omega

lemma one_le_fixedOfFloat (v : ℚ) (h : EXP_UNDERFLOW_EPS ≤ v) : 1 ≤ fixedOfFloat v := by
  have hden : (0 : ℚ) < (v.den : ℚ) := by exact_mod_cast v.den_pos
  have hdpos : 0 < v.den := v.den_pos
  by_cases hw : 1 ≤ natFloorQ v
  · simp only [fixedOfFloat]
    have h1 : SCALE ≤ natFloorQ v * SCALE := by
      calc SCALE = 1 * SCALE := (one_mul _).symm
        _ ≤ natFloorQ v * SCALE := Nat.mul_le_mul_right _ hw
    have hS : 1 ≤ SCALE := SCALE_pos
    exact le_trans hS (le_trans h1 (Nat.le_add_right _ _))
  · have hw0 : natFloorQ v = 0 := by omega
    have hkey : (v.den : ℤ) ≤ v.num * (SCALE : ℤ) := by
      have h1 : (1 : ℚ) / (10 ^ 18 : ℚ) ≤ v := by rw [← EXP_UNDERFLOW_EPS_eq]; exact h
      have h2 : (1 : ℚ) ≤ v * 10 ^ 18 := by
        rw [div_le_iff₀ (by positivity : (0:ℚ) < (10 ^ 18 : ℚ))] at h1
        linarith
      have h3 : (1 : ℚ) ≤ ((v.num : ℚ) * (10 ^ 18 : ℚ)) / (v.den : ℚ) := by
        calc (1 : ℚ) ≤ v * 10 ^ 18 := h2
          _ = ((v.num : ℚ) / (v.den : ℚ)) * 10 ^ 18 := by rw [Rat.num_div_den v]
          _ = ((v.num : ℚ) * (10 ^ 18 : ℚ)) / (v.den : ℚ) := by ring
      rw [le_div_iff₀ hden, one_mul] at h3
      have : (v.den : ℚ) ≤ (v.num : ℚ) * (10 ^ 18 : ℚ) := h3
      have hcast : ((v.den : ℤ) : ℚ) ≤ ((v.num * (SCALE : ℤ) : ℤ) : ℚ) := by
        push_cast
        calc ((v.den : ℕ) : ℚ) ≤ (v.num : ℚ) * (10 ^ 18 : ℚ) := this
          _ = (v.num : ℚ) * ((SCALE : ℕ) : ℚ) := by norm_num [SCALE, DECIMALS]
      exact_mod_cast hcast
    have hdenz : (0 : ℤ) < (v.den : ℤ) := by exact_mod_cast hdpos
    have hSz : (0 : ℤ) < (SCALE : ℤ) := by exact_mod_cast SCALE_pos
    have hprod : (0 : ℤ) ≤ v.num * (SCALE : ℤ) := by linarith
    have hle : v.den ≤ (v.num * (SCALE : ℤ)).toNat := by
      rw [Int.le_toNat hprod]
      exact hkey
    have hdiv : 1 ≤ (v.num * (SCALE : ℤ)).toNat / v.den :=
      (Nat.one_le_div_iff hdpos).mpr hle
    simp only [fixedOfFloat, hw0, Nat.cast_zero, zero_mul, sub_zero]
    omega

/-! ### Bounds for the round-trip exponential -/

lemma eps_pos : (0 : ℚ) < EXP_UNDERFLOW_EPS := by decide

lemma exp_precise_le_sentinel (E : FloatExp) (x : ℕ) (neg : Bool) :
    exp_precise E x neg ≤ EXP_SENTINEL := by
  simp only [exp_precise]
  cases hE : E neg (x / SCALE % LIMB0) (x % SCALE % LIMB0) with
  | none => exact le_refl _
  | some v =>
      show (if (10 ^ 30 : ℚ) < v then EXP_SENTINEL
        else if v < EXP_UNDERFLOW_EPS then 1 else fixedOfFloat v) ≤ EXP_SENTINEL
      by_cases h30 : (10 ^ 30 : ℚ) < v
      · rw [if_pos h30]
      · rw [if_neg h30]
        by_cases heps : v < EXP_UNDERFLOW_EPS
        · rw [if_pos heps]
          exact one_le_EXP_SENTINEL
        · rw [if_neg heps]
          push_neg at h30 heps
          have h0 : 0 ≤ v := le_trans (le_of_lt eps_pos) heps
          calc fixedOfFloat v ≤ 10 ^ 30 * SCALE + (SCALE - 1) := fixedOfFloat_le v h0 h30
            _ ≤ EXP_SENTINEL := by decide

lemma one_le_exp_precise (E : FloatExp) (x : ℕ) (neg : Bool) :
    1 ≤ exp_precise E x neg := by
  simp only [exp_precise]
  cases hE : E neg (x / SCALE % LIMB0) (x % SCALE % LIMB0) with
  | none => exact one_le_EXP_SENTINEL
  | some v =>
      show 1 ≤ if (10 ^ 30 : ℚ) < v then EXP_SENTINEL
        else if v < EXP_UNDERFLOW_EPS then 1 else fixedOfFloat v
      by_cases h30 : (10 ^ 30 : ℚ) < v
      · rw [if_pos h30]
        exact one_le_EXP_SENTINEL
      · rw [if_neg h30]
        by_cases heps : v < EXP_UNDERFLOW_EPS
        · rw [if_pos heps]
        · rw [if_neg heps]
          push_neg at heps
          exact one_le_fixedOfFloat v heps

/-! ### The sigmoid never panics and its divisor arithmetic does not wrap -/

lemma sigmoid_precise_eq (E : FloatExp) (x : ℕ) (neg : Bool) :
    sigmoid_precise E x neg =
      if neg then
        some (exp_precise E x true * SCALE / (SCALE + exp_precise E x true))
      else
        some (SCALE * SCALE / (SCALE + exp_precise E x true)) := by
  have hle := exp_precise_le_sentinel E x true
  have h1 : SCALE + exp_precise E x true < U256MOD := by
    calc SCALE + exp_precise E x true ≤ SCALE + EXP_SENTINEL := Nat.add_le_add_left hle _
      _ < U256MOD := by decide
  have h2 : exp_precise E x true * SCALE < U256MOD := by
    calc exp_precise E x true * SCALE ≤ EXP_SENTINEL * SCALE := Nat.mul_le_mul_right _ hle
      _ < U256MOD := by decide
  have h3 : SCALE * SCALE < U256MOD := by decide
  have hne : SCALE + exp_precise E x true ≠ 0 := by
    have := SCALE_pos
    omega
  cases neg with
  | false =>
      simp only [sigmoid_precise, div_fixed, uAdd, uMul, Bool.false_eq_true, if_false]
      rw [Nat.mod_eq_of_lt h1, Nat.mod_eq_of_lt h3, if_neg hne]
  | true =>
      simp only [sigmoid_precise, div_fixed, uAdd, uMul, if_true]
      rw [Nat.mod_eq_of_lt h1, Nat.mod_eq_of_lt h2, if_neg hne]

lemma sigmoid_some_le (E : FloatExp) (x : ℕ) (neg : Bool) :
    ∃ s, sigmoid_fixed E x neg = some s ∧ s ≤ SCALE := by
  rw [sigmoid_fixed, sigmoid_precise_eq]
  have hpos : 0 < SCALE + exp_precise E x true := by
    have := SCALE_pos
    omega
  cases neg with
  | false =>
      refine ⟨_, by rw [if_neg (by simp)], ?_⟩
      have hm : SCALE * SCALE ≤ SCALE * (SCALE + exp_precise E x true) :=
        Nat.mul_le_mul_left _ (Nat.le_add_right _ _)
      calc SCALE * SCALE / (SCALE + exp_precise E x true)
          ≤ SCALE * (SCALE + exp_precise E x true) / (SCALE + exp_precise E x true) :=
            Nat.div_le_div_right hm
        _ = SCALE := Nat.mul_div_cancel _ hpos
  | true =>
      refine ⟨_, by rw [if_pos rfl], ?_⟩
      have hm : exp_precise E x true * SCALE ≤ SCALE * (SCALE + exp_precise E x true) := by
        calc exp_precise E x true * SCALE = SCALE * exp_precise E x true := Nat.mul_comm _ _
          _ ≤ SCALE * SCALE + SCALE * exp_precise E x true := Nat.le_add_left _ _
          _ = SCALE * (SCALE + exp_precise E x true) := by ring
      calc exp_precise E x true * SCALE / (SCALE + exp_precise E x true)
          ≤ SCALE * (SCALE + exp_precise E x true) / (SCALE + exp_precise E x true) :=
            Nat.div_le_div_right hm
        _ = SCALE := Nat.mul_div_cancel _ hpos

/-! ### The final price rescaling never exceeds the asymptote -/

lemma mul_fixed_le_self (a s : ℕ) (h : s ≤ SCALE) : mul_fixed a s ≤ a := by
  unfold mul_fixed uMul
  rcases Nat.lt_or_ge (a * s) U256MOD with hlt | hge
  · rw [Nat.mod_eq_of_lt hlt]
    calc a * s / SCALE ≤ a * SCALE / SCALE :=
        Nat.div_le_div_right (Nat.mul_le_mul_left _ h)
      _ = a := Nat.mul_div_cancel _ SCALE_pos
  · have hUS : U256MOD ≤ a * SCALE := le_trans hge (Nat.mul_le_mul_left _ h)
    have hmod : a * s % U256MOD < U256MOD := Nat.mod_lt _ (by decide)
    have hlast : (U256MOD - 1) / SCALE < a := by
      rw [Nat.div_lt_iff_lt_mul SCALE_pos]
      omega
    exact le_of_lt
      (lt_of_le_of_lt (Nat.div_le_div_right (a := a * s % U256MOD) (by omega)) hlast)

lemma price_some_le (E : FloatExp) (supply a k b : ℕ) :
    ∃ p, calculate_sigmoid_price E supply a k b = some p ∧ p ≤ a := by
  obtain ⟨s, hs, hsle⟩ := sigmoid_some_le E
    (mul_fixed k (if b ≤ supply then (supply - b, false) else (b - supply, true)).1)
    (if b ≤ supply then (supply - b, false) else (b - supply, true)).2
  refine ⟨mul_fixed a s, ?_, mul_fixed_le_self a s hsle⟩
  simp only [calculate_sigmoid_price]
  rw [hs]
  rfl

/-! ### The integration loop returns zero whenever the step size is zero -/

lemma mul_fixed_zero (p : ℕ) : mul_fixed p 0 = 0 := by
  simp [mul_fixed, uMul]

lemma integralLoop_fst_zero (E : FloatExp) (a k b : ℕ) :
    ∀ (n : ℕ) (cur : ℕ), (integralLoop E a k b 0 n (0, cur)).map Prod.fst = some 0 := by
  intro n
  induction n with
  | zero => intro cur; rfl
  | succ m ih =>
      intro cur
      obtain ⟨p, hp, _⟩ := price_some_le E cur a k b
      simp only [integralLoop]
      rw [hp]
      simp only [mul_fixed_zero]
      have h1 : uAdd 0 0 = 0 := by simp [uAdd]
      rw [h1]
      exact ih (uAdd cur 0)

/-! ## Claim theorems -/

/-- Claim C1 (code bug evidence): the price function is NOT monotonically
non-decreasing in supply.  With `a = 2.0`, `k = 1.0` (so `k > 0`), `b = 0`,
the supplies `supply1 = (2^64 - 1) * SCALE < supply2 = 2^64 * SCALE` give
`price(supply1) = 2*SCALE - 2 > price(supply2) = SCALE`: the conversion in
`exp_precise` reads only the low 64-bit limb of the integer part
(`int_part.as_limbs()[0]`), so the sigmoid argument wraps around at `2^64`
and the price collapses back to `a/2`.  The oracle `expOracleCutoff` models
`libm::exp` at exactly the two reached points: `exp(-0.0) = 1.0` and
`exp(-1.8446744073709552e19) = 0.0` (true value below `1e-18`). -/
theorem price_limb_wrap_breaks_monotonicity :
    (2 ^ 64 - 1) * SCALE < 2 ^ 64 * SCALE ∧
    0 < SCALE ∧
    calculate_sigmoid_price expOracleCutoff ((2 ^ 64 - 1) * SCALE) (2 * SCALE) SCALE 0 =
      some (2 * SCALE - 2) ∧
    calculate_sigmoid_price expOracleCutoff (2 ^ 64 * SCALE) (2 * SCALE) SCALE 0 =
      some SCALE ∧
    SCALE < 2 * SCALE - 2 := by decide

/-- Claim C2 (amended): for every `a, k, b` with `a * (SCALE / 2) < 2^256`,
and given that the floating exponential returns exactly 1.0 at argument 0
(which `libm::exp` does), `calculate_price(b, a, k, b)` returns exactly
`floor(a / 2)`. -/
theorem price_at_inflection_eq_half_a (E : FloatExp) (a k b : ℕ)
    (hE : E true 0 0 = some 1) (ha : a * (SCALE / 2) < U256MOD) :
    calculate_sigmoid_price E b a k b = some (a / 2) := by
  have e1 : (0 : ℕ) / SCALE % LIMB0 = 0 := by decide
  have e2 : (0 : ℕ) % SCALE % LIMB0 = 0 := by decide
  have hexp : exp_precise E 0 true = SCALE := by
    simp only [exp_precise, e1, e2, hE]
    rw [if_neg (by decide), if_neg (by decide)]
    decide
  have hsig : sigmoid_fixed E 0 false = some (SCALE / 2) := by
    rw [sigmoid_fixed, sigmoid_precise_eq]
    rw [if_neg (by simp), hexp]
    decide
  have hred : calculate_sigmoid_price E b a k b =
      (sigmoid_fixed E 0 false).map (fun s => mul_fixed a s) := by
    simp [calculate_sigmoid_price, Nat.sub_self, mul_fixed_zero]
  have hmf : mul_fixed a (SCALE / 2) = a / 2 := by
    unfold mul_fixed uMul
    rw [Nat.mod_eq_of_lt ha]
    have h1 : a * (SCALE / 2) / (SCALE / 2) / 2 = a * (SCALE / 2) / (SCALE / 2 * 2) :=
      Nat.div_div_eq_div_mul _ _ _
    have h2 : a * (SCALE / 2) / (SCALE / 2) = a := Nat.mul_div_cancel _ (by decide)
    have h3 : SCALE / 2 * 2 = SCALE := by decide
    rw [h3] at h1
    rw [h2] at h1
    exact h1.symm
  rw [hred, hsig]
  simp only [Option.map_some']
  exact congrArg some hmf

/-- Witness for C2 at concrete inputs: price at the inflection point with
`a = 7` is `3 = floor(7/2)`. -/
theorem price_at_inflection_eq_half_a_witness :
    calculate_sigmoid_price expOracleOne 5 7 3 5 = some (7 / 2) :=
  price_at_inflection_eq_half_a expOracleOne 7 3 5 rfl (by decide)

/-- Counterexample to C2 as stated (for every `a`): at
`a = 2^256 - 1` the final fixed-point multiplication `a * sigmoid` wraps
modulo `2^256`, so the returned price is not `floor(a / 2)`. -/
theorem price_at_inflection_overflow_cex :
    calculate_sigmoid_price expOracleOne SCALE (2 ^ 256 - 1) SCALE SCALE ≠
      some ((2 ^ 256 - 1) / 2) := by decide

/-- Claim C3: `sigmoid` computes `exp_neg_x = exp_precise(x, true)` (the sign
flag passed to the exponential is `true` in both branches) and returns
`divide(exp_neg_x, SCALE + exp_neg_x)` when `is_negative` and
`divide(SCALE, SCALE + exp_neg_x)` otherwise.  The `+` here is genuine
addition: the wrapping `U256` add never wraps because the exponential is
bounded by its sentinel. -/
theorem sigmoid_branch_structure (E : FloatExp) (x : ℕ) (is_negative : Bool) :
    sigmoid_fixed E x is_negative =
      if is_negative then
        div_fixed (exp_precise E x true) (SCALE + exp_precise E x true)
      else
        div_fixed SCALE (SCALE + exp_precise E x true) := by
  have hle := exp_precise_le_sentinel E x true
  have h2 : exp_precise E x true * SCALE < U256MOD := by
    calc exp_precise E x true * SCALE ≤ EXP_SENTINEL * SCALE := Nat.mul_le_mul_right _ hle
      _ < U256MOD := by decide
  have h3 : SCALE * SCALE < U256MOD := by decide
  have hne : SCALE + exp_precise E x true ≠ 0 := by
    have := SCALE_pos
    omega
  rw [sigmoid_fixed, sigmoid_precise_eq]
  cases is_negative with
  | false =>
      simp only [Bool.false_eq_true, if_false]
      simp only [div_fixed, uMul]
      rw [Nat.mod_eq_of_lt h3, if_neg hne]
  | true =>
      simp only [if_true]
      simp only [div_fixed, uMul]
      rw [Nat.mod_eq_of_lt h2, if_neg hne]

/-- Claim C4: the saturation policy of `exp_precise`.  If the float result is
infinite or exceeds `1e30`, the sentinel is returned; the sentinel times 1000
is exactly `u128::MAX * SCALE` (i.e. it equals `(max magnitude / 1000) * SCALE`
with exact division).  If the float result is below `1e-18` the raw value 1 is
returned.  In every case the result is nonzero. -/
theorem exp_precise_saturation_policy (E : FloatExp) (x : ℕ) (is_negative : Bool) :
    (E is_negative (x / SCALE % LIMB0) (x % SCALE % LIMB0) = none →
        exp_precise E x is_negative = EXP_SENTINEL) ∧
    (∀ v, E is_negative (x / SCALE % LIMB0) (x % SCALE % LIMB0) = some v →
        (10 ^ 30 : ℚ) < v → exp_precise E x is_negative = EXP_SENTINEL) ∧
    (∀ v, E is_negative (x / SCALE % LIMB0) (x % SCALE % LIMB0) = some v →
        v < EXP_UNDERFLOW_EPS → exp_precise E x is_negative = 1) ∧
    EXP_SENTINEL * 1000 = (2 ^ 128 - 1) * SCALE ∧
    1 ≤ exp_precise E x is_negative := by
  refine ⟨?_, ?_, ?_, by decide, one_le_exp_precise E x is_negative⟩
  · intro h
    simp only [exp_precise, h]
  · intro v hv h30
    simp only [exp_precise, hv]
    rw [if_pos h30]
  · intro v hv heps
    have h30 : ¬ (10 ^ 30 : ℚ) < v := by
      have hlt : EXP_UNDERFLOW_EPS < (10 ^ 30 : ℚ) := by decide
      intro hcon
      exact absurd (lt_trans heps hlt) (not_lt.mpr (le_of_lt hcon))
    simp only [exp_precise, hv]
    rw [if_neg h30, if_pos heps]

/-- Witness for C4: the infinite branch returns the sentinel and the
underflow branch returns 1, at concrete oracles and inputs. -/
theorem exp_precise_saturation_policy_witness :
    exp_precise expOracleInf 0 true = EXP_SENTINEL ∧
      exp_precise expOracleTiny 0 true = 1 :=
  ⟨(exp_precise_saturation_policy expOracleInf 0 true).1 rfl,
   (exp_precise_saturation_policy expOracleTiny 0 true).2.2.1 0 rfl (by decide)⟩

/-- Claim C5 (amended): `div_fixed a b` panics (division by zero) if and only
if `b = 0`; when `b ≠ 0` it returns `floor((a * SCALE) / b)` provided
`a * SCALE < 2^256` (for larger `a` the scaled numerator wraps modulo
`2^256` first). -/
theorem div_fixed_spec (a b : ℕ) :
    (div_fixed a b = none ↔ b = 0) ∧
    (b ≠ 0 → a * SCALE < U256MOD → div_fixed a b = some (a * SCALE / b)) := by
  constructor
  · constructor
    · intro h
      by_contra hb
      simp [div_fixed, hb] at h
    · intro h
      simp [div_fixed, h]
  · intro hb hlt
    simp only [div_fixed, uMul]
    rw [Nat.mod_eq_of_lt hlt, if_neg hb]

/-- Witness for C5: a nonzero divisor returns the exact scaled quotient. -/
theorem div_fixed_spec_witness : div_fixed 6 2 = some (6 * SCALE / 2) :=
  (div_fixed_spec 6 2).2 (by decide) (by decide)

/-- Counterexample to C5 as stated: at `a = 2^256 - 1`, `b = 1`, the scaled
numerator `a * SCALE` wraps modulo `2^256`, so the result is
`2^256 - SCALE`, not `floor((a * SCALE) / b)`. -/
theorem div_fixed_overflow_cex :
    div_fixed (2 ^ 256 - 1) 1 = some (2 ^ 256 - SCALE) ∧
      2 ^ 256 - SCALE ≠ (2 ^ 256 - 1) * SCALE / 1 := by decide

/-- Claim C6 (amended): `mul_fixed` never signals an error; the raw product
is reduced modulo `2^256` (ruint wrapping multiplication) before the
rescaling division, and the result agrees with the true `(a*b)/SCALE`
exactly when `a * b < 2^256`. -/
theorem mul_fixed_wrapping_spec (a b : ℕ) :
    mul_fixed a b = a * b % U256MOD / SCALE ∧
      (a * b < U256MOD → mul_fixed a b = a * b / SCALE) := by
  constructor
  · rfl
  · intro h
    unfold mul_fixed uMul
    rw [Nat.mod_eq_of_lt h]

/-- Witness for C6: a product inside the representable range rescales
exactly. -/
theorem mul_fixed_wrapping_spec_witness :
    mul_fixed (3 * SCALE) (5 * SCALE) = 3 * SCALE * (5 * SCALE) / SCALE :=
  (mul_fixed_wrapping_spec (3 * SCALE) (5 * SCALE)).2 (by decide)

/-- Counterexample to C6 as stated: at `a = b = 2^128` the product
`2^256` exceeds the representable range, yet `mul_fixed` returns the
defined value 0 (the product silently wrapped to 0) instead of aborting
with an Overflow error; the true quotient is nonzero. -/
theorem mul_fixed_overflow_cex :
    mul_fixed (2 ^ 128) (2 ^ 128) = 0 ∧ 2 ^ 128 * 2 ^ 128 / SCALE ≠ 0 := by decide

/-- Claim C7 (amended): SCALE is a multiplicative identity for `mul_fixed`
and `div_fixed` for every `x` with `x * SCALE < 2^256`; beyond that bound
the intermediate product wraps. -/
theorem scale_identity (x : ℕ) (h : x * SCALE < U256MOD) :
    mul_fixed x SCALE = x ∧ div_fixed x SCALE = some x := by
  have h1 : x * SCALE % U256MOD = x * SCALE := Nat.mod_eq_of_lt h
  constructor
  · unfold mul_fixed uMul
    rw [h1]
    exact Nat.mul_div_cancel _ SCALE_pos
  · unfold div_fixed uMul
    rw [if_neg (by decide : SCALE ≠ 0), h1, Nat.mul_div_cancel _ SCALE_pos]

/-- Witness for C7 at `x = 42`. -/
theorem scale_identity_witness :
    mul_fixed 42 SCALE = 42 ∧ div_fixed 42 SCALE = some 42 :=
  scale_identity 42 (by decide)

/-- Counterexample to C7 as stated (no size restriction on `x`): at
`x = 2^256 - 1` neither identity holds because `x * SCALE` wraps. -/
theorem scale_identity_overflow_cex :
    mul_fixed (2 ^ 256 - 1) SCALE ≠ 2 ^ 256 - 1 ∧
      div_fixed (2 ^ 256 - 1) SCALE ≠ some (2 ^ 256 - 1) := by decide

/-- Claim C8: whenever `to_supply ≤ from_supply` (including equal bounds),
the integrator's step size is zero and the integral is the defined value 0
(`some 0`, not a panic), for every oracle and every `a, k, b`. -/
theorem integral_empty_range_zero (E : FloatExp) (from_supply to_supply a k b : ℕ)
    (h : to_supply ≤ from_supply) :
    integral_step_size from_supply to_supply = 0 ∧
      sigmoid_integral E from_supply to_supply a k b = some 0 := by
  have hstep : integral_step_size from_supply to_supply = 0 := by
    unfold integral_step_size
    rw [if_neg (Nat.not_lt.mpr h)]
  refine ⟨hstep, ?_⟩
  unfold sigmoid_integral
  rw [hstep]
  exact integralLoop_fst_zero E a k b 100 from_supply

/-- Witness for C8: the degenerate equal-bounds range integrates to 0. -/
theorem integral_empty_range_zero_witness :
    integral_step_size 5 5 = 0 ∧ sigmoid_integral expOracleOne 5 5 7 11 13 = some 0 :=
  integral_empty_range_zero expOracleOne 5 5 7 11 13 (by decide)

/-- Claim C9: for a strictly positive range narrower than 100 raw units,
the truncated step `(to_supply - from_supply) / 100` is 0 and the integral
returned is exactly 0. -/
theorem integral_narrow_range_zero (E : FloatExp) (from_supply to_supply a k b : ℕ)
    (h1 : from_supply < to_supply) (h2 : to_supply - from_supply < 100) :
    integral_step_size from_supply to_supply = 0 ∧
      sigmoid_integral E from_supply to_supply a k b = some 0 := by
  have hstep : integral_step_size from_supply to_supply = 0 := by
    unfold integral_step_size
    rw [if_pos h1]
    exact Nat.div_eq_of_lt h2
  refine ⟨hstep, ?_⟩
  unfold sigmoid_integral
  rw [hstep]
  exact integralLoop_fst_zero E a k b 100 from_supply

/-- Witness for C9: the range `[0, 99)` of width 99 < 100 integrates to 0. -/
theorem integral_narrow_range_zero_witness :
    integral_step_size 0 99 = 0 ∧ sigmoid_integral expOracleOne 0 99 7 11 13 = some 0 :=
  integral_narrow_range_zero expOracleOne 0 99 7 11 13 (by decide) (by decide)

/-- Claim C10: for every oracle, input and sign flag the sigmoid returns a
defined value between 0 and SCALE (a probability in `[0,1]` in fixed point),
and consequently every price the curve returns is at most `a`. -/
theorem sigmoid_unit_range_price_le_a (E : FloatExp) (x : ℕ) (is_negative : Bool)
    (supply a k b : ℕ) :
    (∃ s, sigmoid_fixed E x is_negative = some s ∧ s ≤ SCALE) ∧
    (∀ p, calculate_sigmoid_price E supply a k b = some p → p ≤ a) := by
  refine ⟨sigmoid_some_le E x is_negative, ?_⟩
  intro p hp
  obtain ⟨q, hq, hqle⟩ := price_some_le E supply a k b
  rw [hp] at hq
  obtain rfl := Option.some_inj.mp hq
  exact hqle

/-- Witness for C10: the sigmoid at 0 is defined and bounded, and the price
`3` returned at `a = 7` is at most `7`. -/
theorem sigmoid_unit_range_price_le_a_witness :
    (∃ s, sigmoid_fixed expOracleOne 0 false = some s ∧ s ≤ SCALE) ∧ (3 : ℕ) ≤ 7 :=
  ⟨(sigmoid_unit_range_price_le_a expOracleOne 0 false 0 7 0 0).1,
   (sigmoid_unit_range_price_le_a expOracleOne 0 false 0 7 0 0).2 3 (by decide)⟩
